import Mathlib

/-!
Verification of the gobm65 Beurer BM65 blood-pressure monitor reader.

This file gives a shallow embedding of the core of the program
(measurement data model, the merge/dedup engine, the WHO classifier,
the date and time-of-day filters, the statistics engine, and the
serial protocol client) and proves or refutes the specification's
claims about it.

Modelling conventions:
* Go `int` is modelled as `Int` (record counts stay small, no overflow
  is reachable in the modelled code paths).
* Go struct equality (`l[i] == m`) is field-wise equality, modelled by
  structure equality with `DecidableEq`.
* `time.Date(year, month, day, hour, minute, 0, 0, …)` values are
  compared by the program only through `Sub`; for calendar fields the
  comparison agrees with lexicographic comparison of the field tuple
  `(year, month, day, hour, minute)`, which is how timestamps are
  modelled here (the spec itself frames the ordering this way).
* Go floating point (`float64`) intermediates in the statistics engine
  are modelled by exact rationals; `int(x)` conversion is truncation
  toward zero, and `int(math.Sqrt(x))` is the integer square root
  (exact-real semantics of the float operations).
* The byte channel is modelled by scripts: a list of outcomes for the
  successive `Read` calls and a list of outcomes for the successive
  `Write` calls (an exhausted write script means the write succeeds; an
  exhausted read script means the blocking read never returns).
  Performed writes are logged so that theorems can speak about the
  queries the client issues.
* `log.Fatal` terminates the process; it is modelled by a dedicated
  `fatal` outcome distinct from an error return.
* Go's `sort.Slice` makes no stability guarantee and its comparator here
  (`isLater`) is reflexive, so tied elements compare "less" both ways.
  `mergeItems` models the sort with a stable insertion sort, which is
  adequate for every conclusion that is insensitive to the order of tied
  elements (duplicate-freeness, sortedness, membership, length).
  `mergeItemsGo` additionally models what Go's `sort.Slice` actually does
  on the small slices this device produces — its insertion sort bubbles
  an element left while `Less` holds, so a tied element moves past the
  whole tied run, reversing tied runs on every call — which is the
  behaviour that decides tie-order-sensitive statements.
-/

/-- The measurement record, from the Go `measurement` struct. -/
structure measurement where
  Header    : Int
  Systolic  : Int
  Diastolic : Int
  Pulse     : Int
  Month     : Int
  Day       : Int
  Hour      : Int
  Minute    : Int
  Year      : Int
deriving DecidableEq

/-- The `isLater` closure inside `mergeItems`: true iff `mi`'s date is later
than or equal to `mj`'s date, by the Go switch statement. -/
def isLater (mi mj : measurement) : Bool :=
  if mi.Year < mj.Year then false
  else if mi.Year > mj.Year then true
  else if mi.Month < mj.Month then false
  else if mi.Month > mj.Month then true
  else if mi.Day < mj.Day then false
  else if mi.Day > mj.Day then true
  else if mi.Hour < mj.Hour then false
  else if mi.Hour > mj.Hour then true
  else if mi.Minute < mj.Minute then false
  else true

/-- `isLater` as a relation, for use with the sorting library. -/
def laterRel (a b : measurement) : Prop := isLater a b = true

instance : DecidableRel laterRel := fun a b => by
  unfold laterRel; infer_instance

/-- Characterisation of `isLater` as a lexicographic comparison over
`(year, month, day, hour, minute)`, most significant first. -/
theorem isLater_iff (a b : measurement) :
    isLater a b = true ↔
      (b.Year < a.Year ∨ (b.Year = a.Year ∧
        (b.Month < a.Month ∨ (b.Month = a.Month ∧
          (b.Day < a.Day ∨ (b.Day = a.Day ∧
            (b.Hour < a.Hour ∨ (b.Hour = a.Hour ∧
              b.Minute ≤ a.Minute)))))))) := by
  unfold isLater
  split_ifs <;> simp <;> omega

theorem laterRel_iff (a b : measurement) :
    laterRel a b ↔
      (b.Year < a.Year ∨ (b.Year = a.Year ∧
        (b.Month < a.Month ∨ (b.Month = a.Month ∧
          (b.Day < a.Day ∨ (b.Day = a.Day ∧
            (b.Hour < a.Hour ∨ (b.Hour = a.Hour ∧
              b.Minute ≤ a.Minute)))))))) := isLater_iff a b

theorem laterRel_refl (a : measurement) : laterRel a a := by
  rw [laterRel_iff]; omega

theorem laterRel_total (a b : measurement) : laterRel a b ∨ laterRel b a := by
  rw [laterRel_iff, laterRel_iff]; omega

theorem laterRel_trans {a b c : measurement} :
    laterRel a b → laterRel b c → laterRel a c := by
  rw [laterRel_iff, laterRel_iff, laterRel_iff]; omega

instance : IsTotal measurement laterRel := ⟨laterRel_total⟩
instance : IsTrans measurement laterRel := ⟨fun _ _ _ => laterRel_trans⟩
instance : IsRefl measurement laterRel := ⟨laterRel_refl⟩

/-- The `insertIfMissing` closure inside `mergeItems`: scan the sorted list
as the Go loop does; stop at the first element not later-or-equal than `m`
and insert there; return the list unchanged on an exact duplicate; append
at the end when every element is later-or-equal. -/
def insertIfMissing : List measurement → measurement → List measurement
  | [], m => [m]
  | x :: xs, m =>
    if isLater x m then
      if x = m then x :: xs
      else x :: insertIfMissing xs m
    else m :: x :: xs

/-- `mergeItems` from the source: sort both inputs descending, then insert
the new items and then the old items into a growing result list. The Go
`sort.Slice` call is modelled here by a stable insertion sort with the
`isLater` comparator; `sort.Slice` is unstable, so this model is used
only for conclusions that hold for every order of tied elements (see
`mergeItemsGo` for the tie-order-faithful model). -/
def mergeItems (newItems oldItems : List measurement) : List measurement :=
  let sortedOld := List.insertionSort laterRel oldItems
  let sortedNew := List.insertionSort laterRel newItems
  sortedOld.foldl insertIfMissing (sortedNew.foldl insertIfMissing [])

/-! Invariant lemmas for `insertIfMissing`. -/

theorem mem_insertIfMissing (l : List measurement) (m a : measurement) :
    a ∈ insertIfMissing l m ↔ a ∈ l ∨ a = m := by
  induction l with
  | nil => simp [insertIfMissing]
  | cons x xs ih =>
    by_cases hl : isLater x m
    · by_cases hx : x = m
      · subst hx
        simp only [insertIfMissing, hl, if_true, if_pos rfl]
        constructor
        · intro h; exact Or.inl h
        · rintro (h | h)
          · exact h
          · subst h; exact List.mem_cons_self _ _
      · simp only [insertIfMissing, hl, if_true, if_neg hx, List.mem_cons, ih]
        tauto
    · rw [Bool.not_eq_true] at hl
      simp only [insertIfMissing, hl, Bool.false_eq_true, if_false, List.mem_cons]
      tauto

theorem pairwise_insertIfMissing {l : List measurement} (m : measurement)
    (h : l.Pairwise laterRel) :
    (insertIfMissing l m).Pairwise laterRel := by
  induction l with
  | nil => simp [insertIfMissing, List.pairwise_singleton]
  | cons x xs ih =>
    rcases List.pairwise_cons.mp h with ⟨hx, hxs⟩
    by_cases hl : isLater x m
    · by_cases hxm : x = m
      · simpa only [insertIfMissing, hl, if_true, if_pos hxm] using h
      · simp only [insertIfMissing, hl, if_true, if_neg hxm]
        refine List.pairwise_cons.mpr ⟨?_, ih hxs⟩
        intro a ha
        rcases (mem_insertIfMissing xs m a).mp ha with h' | h'
        · exact hx a h'
        · subst h'; exact hl
    · simp only [insertIfMissing, hl, if_false]
      refine List.pairwise_cons.mpr ⟨?_, h⟩
      intro a ha
      rcases List.mem_cons.mp ha with h' | h'
      · subst h'
        rcases laterRel_total m a with h'' | h''
        · exact h''
        · exact absurd h'' hl
      · have hma : laterRel m x := by
          rcases laterRel_total m x with h'' | h''
          · exact h''
          · exact absurd h'' hl
        exact laterRel_trans hma (hx a h')

theorem nodup_insertIfMissing {l : List measurement} (m : measurement)
    (hp : l.Pairwise laterRel) (hn : l.Nodup) :
    (insertIfMissing l m).Nodup := by
  induction l with
  | nil => simp [insertIfMissing]
  | cons x xs ih =>
    rcases List.pairwise_cons.mp hp with ⟨hx, hxs⟩
    rcases List.nodup_cons.mp hn with ⟨hxmem, hxsn⟩
    by_cases hl : isLater x m
    · by_cases hxm : x = m
      · simpa only [insertIfMissing, hl, if_true, if_pos hxm] using hn
      · simp only [insertIfMissing, hl, if_true, if_neg hxm]
        refine List.nodup_cons.mpr ⟨?_, ih hxs hxsn⟩
        intro hmem
        rcases (mem_insertIfMissing xs m x).mp hmem with h' | h'
        · exact hxmem h'
        · exact hxm h'
    · simp only [insertIfMissing, hl, if_false]
      refine List.nodup_cons.mpr ⟨?_, hn⟩
      intro hmem
      rcases List.mem_cons.mp hmem with h' | h'
      · subst h'; exact hl (laterRel_refl m)
      · exact hl (hx m h')

theorem foldl_insertIfMissing_invariant (l : List measurement)
    {acc : List measurement} (hp : acc.Pairwise laterRel) (hn : acc.Nodup) :
    (l.foldl insertIfMissing acc).Pairwise laterRel ∧
      (l.foldl insertIfMissing acc).Nodup := by
  induction l generalizing acc with
  | nil => exact ⟨hp, hn⟩
  | cons x xs ih =>
    exact ih (pairwise_insertIfMissing x hp) (nodup_insertIfMissing x hp hn)

/-- The result of `mergeItems` is pairwise sorted under `laterRel` and
duplicate-free. -/
theorem mergeItems_pairwise_nodup (newItems oldItems : List measurement) :
    (mergeItems newItems oldItems).Pairwise laterRel ∧
      (mergeItems newItems oldItems).Nodup := by
  unfold mergeItems
  have h1 := @foldl_insertIfMissing_invariant
    (List.insertionSort laterRel newItems)
    [] List.Pairwise.nil List.nodup_nil
  exact foldl_insertIfMissing_invariant
    (List.insertionSort laterRel oldItems) h1.1 h1.2

/-- C1: for every pair of measurement collections, `mergeItems` returns a
duplicate-free list (no two elements agree on all nine fields) in which
every adjacent pair `(a, b)` satisfies the later-or-equal relation
`isLater a b`, the descending lexicographic comparison over
`(year, month, day, hour, minute)`. -/
theorem C1_mergeItems_nodup_sorted (newItems oldItems : List measurement) :
    (mergeItems newItems oldItems).Nodup ∧
      (mergeItems newItems oldItems).Chain' (fun a b => isLater a b = true) := by
  obtain ⟨hp, hn⟩ := mergeItems_pairwise_nodup newItems oldItems
  exact ⟨hn, hp.chain'⟩

/-! Membership and length facts about `mergeItems`, for C6. -/

theorem mem_foldl_insertIfMissing (l : List measurement) (acc : List measurement)
    (a : measurement) :
    a ∈ l.foldl insertIfMissing acc ↔ a ∈ acc ∨ a ∈ l := by
  induction l generalizing acc with
  | nil => simp
  | cons x xs ih =>
    rw [List.foldl_cons, ih, mem_insertIfMissing, List.mem_cons]
    tauto

theorem mem_mergeItems (newItems oldItems : List measurement) (a : measurement) :
    a ∈ mergeItems newItems oldItems ↔ a ∈ newItems ∨ a ∈ oldItems := by
  unfold mergeItems
  rw [mem_foldl_insertIfMissing, mem_foldl_insertIfMissing]
  simp [List.mem_insertionSort]

/-- C6: `mergeItems A []` contains exactly the distinct elements of `A`
under nine-field equality: nothing but duplicates is dropped, every exact
duplicate is removed, and the length equals the number of distinct
elements of `A`. -/
theorem C6_merge_empty_dedup (A : List measurement) :
    (∀ a, a ∈ mergeItems A [] ↔ a ∈ A) ∧
      (mergeItems A []).Nodup ∧
      (mergeItems A []).length = A.dedup.length := by
  have hmem : ∀ a, a ∈ mergeItems A [] ↔ a ∈ A := by
    intro a
    rw [mem_mergeItems]
    simp
  obtain ⟨_, hn⟩ := mergeItems_pairwise_nodup A []
  refine ⟨hmem, hn, ?_⟩
  have hperm : List.Perm (mergeItems A []) A.dedup := by
    rw [List.perm_ext_iff_of_nodup hn (List.nodup_dedup A)]
    intro a
    rw [hmem, List.mem_dedup]
  exact hperm.length_eq

/-! Idempotence of the merge on its own output, for C9. -/

theorem insertIfMissing_append (l : List measurement) (m : measurement)
    (h : ∀ x ∈ l, laterRel x m ∧ x ≠ m) :
    insertIfMissing l m = l ++ [m] := by
  induction l with
  | nil => rfl
  | cons x xs ih =>
    obtain ⟨hx, hxm⟩ := h x (List.mem_cons_self x xs)
    have hx' : isLater x m = true := hx
    simp only [insertIfMissing, hx', if_true, if_neg hxm,
      ih (fun y hy => h y (List.mem_cons_of_mem x hy)), List.cons_append]

theorem foldl_insertIfMissing_of_sorted (suf : List measurement) :
    ∀ acc : List measurement, (acc ++ suf).Pairwise laterRel →
      (acc ++ suf).Nodup → suf.foldl insertIfMissing acc = acc ++ suf := by
  induction suf with
  | nil => intro acc _ _; simp
  | cons m rest ih =>
    intro acc hp hn
    have hmem : ∀ x ∈ acc, laterRel x m ∧ x ≠ m := by
      intro x hx
      refine ⟨(List.pairwise_append.mp hp).2.2 x hx m (List.mem_cons_self m rest), ?_⟩
      intro he
      subst he
      exact (List.disjoint_of_nodup_append hn) hx (List.mem_cons_self x rest)
    rw [List.foldl_cons, insertIfMissing_append acc m hmem]
    have hassoc : acc ++ m :: rest = (acc ++ [m]) ++ rest := by simp
    rw [hassoc] at hp hn
    rw [ih (acc ++ [m]) hp hn]
    simp

/-- The insertion step of Go's `sort.Slice` insertion sort (used for the
small slices this device produces): the new element bubbles left while
`Less(j, j-1)` holds, i.e. while `isLater` of the new element over its
left neighbour is true. Since `isLater` is reflexive, the element moves
past every tied element and comes to rest directly after the last
strictly-later one — tied runs are reversed by each sort call. -/
def goOrderedInsert (m : measurement) : List measurement → List measurement
  | [] => [m]
  | x :: xs => if isLater m x then m :: x :: xs else x :: goOrderedInsert m xs

/-- Go's `sort.Slice` on the slices at hand: insert each element in turn
into the sorted prefix, with the tie-reversing insertion above. -/
def goSortSlice (l : List measurement) : List measurement :=
  l.foldl (fun acc m => goOrderedInsert m acc) []

/-- `mergeItems` with the tie-order-faithful model of `sort.Slice`
(`goSortSlice`); it differs from `mergeItems` only in how the two sort
calls order tied elements. -/
def mergeItemsGo (newItems oldItems : List measurement) : List measurement :=
  (goSortSlice oldItems).foldl insertIfMissing
    ((goSortSlice newItems).foldl insertIfMissing [])

theorem mem_goOrderedInsert (m a : measurement) (l : List measurement) :
    a ∈ goOrderedInsert m l ↔ a ∈ l ∨ a = m := by
  induction l with
  | nil => simp [goOrderedInsert]
  | cons x xs ih =>
    by_cases h : isLater m x
    · simp only [goOrderedInsert, h, if_true, List.mem_cons]
      tauto
    · rw [Bool.not_eq_true] at h
      simp only [goOrderedInsert, h, Bool.false_eq_true, if_false,
        List.mem_cons, ih]
      tauto

theorem mem_goSortSlice (l : List measurement) (a : measurement) :
    a ∈ goSortSlice l ↔ a ∈ l := by
  suffices h : ∀ acc, a ∈ l.foldl (fun acc m => goOrderedInsert m acc) acc ↔
      a ∈ acc ∨ a ∈ l by
    simpa [goSortSlice] using h []
  induction l with
  | nil => simp
  | cons x xs ih =>
    intro acc
    rw [List.foldl_cons, ih, mem_goOrderedInsert, List.mem_cons]
    tauto

theorem mem_mergeItemsGo (newItems oldItems : List measurement)
    (a : measurement) :
    a ∈ mergeItemsGo newItems oldItems ↔ a ∈ newItems ∨ a ∈ oldItems := by
  unfold mergeItemsGo
  rw [mem_foldl_insertIfMissing, mem_foldl_insertIfMissing]
  simp [mem_goSortSlice]

theorem mergeItemsGo_pairwise_nodup (newItems oldItems : List measurement) :
    (mergeItemsGo newItems oldItems).Pairwise laterRel ∧
      (mergeItemsGo newItems oldItems).Nodup := by
  unfold mergeItemsGo
  have h1 := @foldl_insertIfMissing_invariant (goSortSlice newItems)
    [] List.Pairwise.nil List.nodup_nil
  exact foldl_insertIfMissing_invariant (goSortSlice oldItems) h1.1 h1.2

theorem goOrderedInsert_append (m : measurement) (l : List measurement)
    (h : ∀ x ∈ l, isLater m x = false) :
    goOrderedInsert m l = l ++ [m] := by
  induction l with
  | nil => rfl
  | cons x xs ih =>
    have hx := h x (List.mem_cons_self x xs)
    simp only [goOrderedInsert, hx, Bool.false_eq_true, if_false,
      ih (fun y hy => h y (List.mem_cons_of_mem x hy)), List.cons_append]

theorem goSortSlice_foldl_of_strict (suf : List measurement) :
    ∀ acc : List measurement,
      (acc ++ suf).Pairwise (fun a b => isLater b a = false) →
      suf.foldl (fun acc m => goOrderedInsert m acc) acc = acc ++ suf := by
  induction suf with
  | nil => intro acc _; simp
  | cons m rest ih =>
    intro acc hp
    have hmem : ∀ x ∈ acc, isLater m x = false :=
      fun x hx => (List.pairwise_append.mp hp).2.2 x hx m
        (List.mem_cons_self m rest)
    rw [List.foldl_cons, goOrderedInsert_append m acc hmem]
    have hassoc : acc ++ m :: rest = (acc ++ [m]) ++ rest := by simp
    rw [hassoc] at hp
    rw [ih (acc ++ [m]) hp]
    simp

/-- Sorting a strictly descending list (no tied timestamps) with Go's
tie-reversing insertion sort is the identity. -/
theorem goSortSlice_of_strict {R : List measurement}
    (hp : R.Pairwise (fun a b => isLater b a = false)) :
    goSortSlice R = R := by
  unfold goSortSlice
  simpa using goSortSlice_foldl_of_strict R [] (by simpa using hp)

theorem strict_imp_laterRel {a b : measurement} (h : isLater b a = false) :
    laterRel a b := by
  rw [laterRel_iff]
  have := isLater_iff b a
  rw [h] at this
  simp only [Bool.false_eq_true, false_iff] at this
  omega

theorem strict_imp_ne {a b : measurement} (h : isLater b a = false) :
    a ≠ b := by
  intro he
  subst he
  exact absurd (laterRel_refl a) (by simp [laterRel, h])

/-- A record at noon 2020-01-01 (used in the C9 counterexample). -/
def tied2020A : measurement := ⟨0, 120, 80, 60, 1, 1, 12, 0, 2020⟩

/-- A distinct record with the same timestamp as `tied2020A`. -/
def tied2020B : measurement := ⟨0, 130, 85, 70, 1, 1, 12, 0, 2020⟩

/-- C9 counterexample: with Go's actual `sort.Slice` insertion sort, which
reverses tied runs, merging two distinct records that share a timestamp
yields `[tied2020B, tied2020A]`, and re-merging that output against the
empty list yields `[tied2020A, tied2020B]` — so `merge` is NOT idempotent
element for element on tied records, refuting the claim as stated. -/
theorem C9_counterexample :
    mergeItemsGo [tied2020A, tied2020B] [] = [tied2020B, tied2020A] ∧
      mergeItemsGo (mergeItemsGo [tied2020A, tied2020B] []) [] =
        [tied2020A, tied2020B] ∧
      mergeItemsGo (mergeItemsGo [tied2020A, tied2020B] []) [] ≠
        mergeItemsGo [tied2020A, tied2020B] [] := by
  exact ⟨by decide, by decide, by decide⟩

/-- C9 amended: the merge is idempotent on its own output up to
permutation — the re-merge is a rearrangement of the same records, hence
of the same length — and it is idempotent element for element whenever no
two records of the merged output share a `(year, month, day, hour,
minute)` timestamp; records with tied timestamps may have their relative
order reversed by the unstable sort. -/
theorem C9_merge_go_idempotent (A B : List measurement) :
    List.Perm (mergeItemsGo (mergeItemsGo A B) []) (mergeItemsGo A B) ∧
      ((mergeItemsGo A B).Pairwise (fun a b => isLater b a = false) →
        mergeItemsGo (mergeItemsGo A B) [] = mergeItemsGo A B) := by
  constructor
  · rw [List.perm_ext_iff_of_nodup
      (mergeItemsGo_pairwise_nodup (mergeItemsGo A B) []).2
      (mergeItemsGo_pairwise_nodup A B).2]
    intro a
    rw [mem_mergeItemsGo]
    simp
  · intro hp
    have hlater : (mergeItemsGo A B).Pairwise laterRel :=
      hp.imp fun h => strict_imp_laterRel h
    have hnodup : (mergeItemsGo A B).Nodup :=
      List.Pairwise.imp (fun h => strict_imp_ne h) hp
    show (goSortSlice []).foldl insertIfMissing
      ((goSortSlice (mergeItemsGo A B)).foldl insertIfMissing []) = _
    rw [goSortSlice_of_strict hp]
    simpa using foldl_insertIfMissing_of_sorted (mergeItemsGo A B) []
      (by simpa using hlater) (by simpa using hnodup)

/-- A record on 2020-01-02, strictly later than `c9early`. -/
def c9late : measurement := ⟨0, 120, 80, 60, 1, 2, 23, 30, 2020⟩

/-- A record on 2020-01-01, strictly earlier than `c9late`. -/
def c9early : measurement := ⟨0, 125, 82, 64, 1, 1, 15, 0, 2020⟩

/-- C9 witness: the amended theorem at a concrete merge of two records
with distinct timestamps: the re-merge returns the output unchanged. -/
theorem C9_witness :
    mergeItemsGo (mergeItemsGo [c9early] [c9late]) [] =
      mergeItemsGo [c9early] [c9late] := by
  apply (C9_merge_go_idempotent [c9early] [c9late]).2
  have h : mergeItemsGo [c9early] [c9late] = [c9late, c9early] := by decide
  rw [h]
  refine List.Pairwise.cons (fun b hb => ?_)
    (List.Pairwise.cons (fun b hb => by simp at hb) List.Pairwise.nil)
  rw [List.mem_singleton] at hb
  subst hb
  decide

/-! World Health Organization blood-pressure classification, from the Go
constants and the `WHOClass` method. -/

def BPOptimal : Nat := 0
def BPNormal : Nat := 1
def BPHighNormal : Nat := 2
def BPMildHypertension : Nat := 3
def BPModerateHypertension : Nat := 4
def BPSevereHypertension : Nat := 5

def IsolatedSystolicHypertension : Nat := 1

/-- `WHOClass` from the source: compute the isolated-systolic flag, then
run the switch over the class thresholds, first match wins. -/
def WHOClass (m : measurement) : Nat × Nat :=
  let flag := if 140 ≤ m.Systolic ∧ m.Diastolic < 90
    then IsolatedSystolicHypertension else 0
  if m.Systolic < 120 ∧ m.Diastolic < 80 then (BPOptimal, flag)
  else if m.Systolic < 130 ∧ m.Diastolic < 85 then (BPNormal, flag)
  else if m.Systolic < 140 ∧ m.Diastolic < 90 then (BPHighNormal, flag)
  else if m.Systolic < 160 ∧ m.Diastolic < 100 then (BPMildHypertension, flag)
  else if m.Systolic < 180 ∧ m.Diastolic < 110 then (BPModerateHypertension, flag)
  else (BPSevereHypertension, flag)

/-- Modelled from the spec: the ordered threshold table of
`(maxSystolic, maxDiastolic, category)` rows. -/
def whoTable : List (Int × Int × Nat) :=
  [(120, 80, BPOptimal), (130, 85, BPNormal), (140, 90, BPHighNormal),
   (160, 100, BPMildHypertension), (180, 110, BPModerateHypertension)]

/-- Modelled from the spec: the category is the first matching row of the
ordered threshold table, defaulting to Severe Hypertension. -/
def specWHOCategory (m : measurement) : Nat :=
  match whoTable.find? (fun row =>
      decide (m.Systolic < row.1 ∧ m.Diastolic < row.2.1)) with
  | some row => row.2.2
  | none => BPSevereHypertension

/-- C3: `WHOClass` returns the first matching row of the ordered threshold
table, attaches the Isolated Systolic Hypertension flag exactly when
systolic ≥ 140 and diastolic < 90, and on systolic 145 / diastolic 85
returns Mild Hypertension with the flag. -/
theorem C3_WHOClass_first_match (m : measurement) :
    (WHOClass m).1 = specWHOCategory m ∧
      ((WHOClass m).2 = IsolatedSystolicHypertension ↔
        140 ≤ m.Systolic ∧ m.Diastolic < 90) ∧
      WHOClass ⟨0, 145, 85, 0, 0, 0, 0, 0, 0⟩ =
        (BPMildHypertension, IsolatedSystolicHypertension) := by
  refine ⟨?_, ?_, by decide⟩
  · unfold WHOClass specWHOCategory whoTable
    simp only [List.find?]
    by_cases h1 : m.Systolic < 120 ∧ m.Diastolic < 80 <;>
      by_cases h2 : m.Systolic < 130 ∧ m.Diastolic < 85 <;>
      by_cases h3 : m.Systolic < 140 ∧ m.Diastolic < 90 <;>
      by_cases h4 : m.Systolic < 160 ∧ m.Diastolic < 100 <;>
      by_cases h5 : m.Systolic < 180 ∧ m.Diastolic < 110 <;>
      simp [h1, h2, h3, h4, h5]
  · unfold WHOClass
    by_cases hf : 140 ≤ m.Systolic ∧ m.Diastolic < 90 <;>
      simp [hf, IsolatedSystolicHypertension] <;> split_ifs <;> simp_all

/-! Date-range filter, from the two filter loops in `main`. A bound parsed
by `parseDate` and a record timestamp built by `time.Date` from the
measurement's fields (zero seconds) are compared through `Sub`; at minute
granularity and for calendar fields this is the lexicographic comparison
of the field tuples, which is how it is modelled here. -/

/-- An absolute timestamp bound at minute granularity. -/
structure timeStamp where
  Year   : Int
  Month  : Int
  Day    : Int
  Hour   : Int
  Minute : Int
deriving DecidableEq

/-- `iDate.Sub(d) < 0`: the record's timestamp is strictly before `d`. -/
def dateBefore (m : measurement) (d : timeStamp) : Bool :=
  if m.Year ≠ d.Year then m.Year < d.Year
  else if m.Month ≠ d.Month then m.Month < d.Month
  else if m.Day ≠ d.Day then m.Day < d.Day
  else if m.Hour ≠ d.Hour then m.Hour < d.Hour
  else m.Minute < d.Minute

/-- `iDate.Sub(d) <= 0`: the record's timestamp is before or equal to `d`. -/
def dateNotAfter (m : measurement) (d : timeStamp) : Bool :=
  if m.Year ≠ d.Year then m.Year < d.Year
  else if m.Month ≠ d.Month then m.Month < d.Month
  else if m.Day ≠ d.Day then m.Day < d.Day
  else if m.Hour ≠ d.Hour then m.Hour < d.Hour
  else m.Minute ≤ d.Minute

/-- The from-date loop in `main`: scan from the front and cut the list at
the first record strictly before `startDate`; if no record is before the
bound the collection is left unchanged. -/
def fromDateFilter (startDate : timeStamp) : List measurement → List measurement
  | [] => []
  | m :: rest =>
    if dateBefore m startDate then []
    else m :: fromDateFilter startDate rest

/-- The to-date loop in `main`: scan from the front for the first record
whose timestamp is before or equal to `endDate` and keep the suffix from
there; if no record satisfies the bound the collection is left unchanged
(the loop never breaks). -/
def toDateFilter (endDate : timeStamp) (items : List measurement) : List measurement :=
  let s := items.dropWhile (fun m => !(dateNotAfter m endDate))
  if s.isEmpty then items else s

theorem dateBefore_iff (m : measurement) (d : timeStamp) :
    dateBefore m d = true ↔
      (m.Year < d.Year ∨ (m.Year = d.Year ∧
        (m.Month < d.Month ∨ (m.Month = d.Month ∧
          (m.Day < d.Day ∨ (m.Day = d.Day ∧
            (m.Hour < d.Hour ∨ (m.Hour = d.Hour ∧
              m.Minute < d.Minute)))))))) := by
  unfold dateBefore
  split_ifs <;> simp <;> omega

theorem dateNotAfter_iff (m : measurement) (d : timeStamp) :
    dateNotAfter m d = true ↔
      (m.Year < d.Year ∨ (m.Year = d.Year ∧
        (m.Month < d.Month ∨ (m.Month = d.Month ∧
          (m.Day < d.Day ∨ (m.Day = d.Day ∧
            (m.Hour < d.Hour ∨ (m.Hour = d.Hour ∧
              m.Minute ≤ d.Minute)))))))) := by
  unfold dateNotAfter
  split_ifs <;> simp <;> omega

theorem dateBefore_of_laterRel {a b : measurement} {d : timeStamp}
    (h : laterRel a b) (ha : dateBefore a d = true) : dateBefore b d = true := by
  rw [laterRel_iff] at h
  rw [dateBefore_iff] at ha ⊢
  omega

theorem dateNotAfter_of_laterRel {a b : measurement} {d : timeStamp}
    (h : laterRel a b) (ha : dateNotAfter a d = true) : dateNotAfter b d = true := by
  rw [laterRel_iff] at h
  rw [dateNotAfter_iff] at ha ⊢
  omega

theorem fromDateFilter_eq_filter (startDate : timeStamp)
    {items : List measurement} (h : items.Pairwise laterRel) :
    fromDateFilter startDate items =
      items.filter (fun m => !(dateBefore m startDate)) := by
  induction items with
  | nil => rfl
  | cons m rest ih =>
    rcases List.pairwise_cons.mp h with ⟨hm, hrest⟩
    by_cases hb : dateBefore m startDate
    · have hall : ∀ x ∈ rest, dateBefore x startDate = true :=
        fun x hx => dateBefore_of_laterRel (hm x hx) hb
      simp only [fromDateFilter, hb, if_true]
      rw [eq_comm, List.filter_eq_nil_iff]
      intro a ha
      rcases List.mem_cons.mp ha with h' | h'
      · subst h'; simp [hb]
      · simp [hall a h']
    · rw [Bool.not_eq_true] at hb
      simp only [fromDateFilter, hb, Bool.false_eq_true, if_false]
      rw [List.filter_cons_of_pos (by simp [hb]), ih hrest]

theorem toDateFilter_eq_filter (endDate : timeStamp)
    {items : List measurement} (h : items.Pairwise laterRel)
    (hex : ∃ m ∈ items, dateNotAfter m endDate = true) :
    toDateFilter endDate items =
      items.filter (fun m => dateNotAfter m endDate) := by
  induction items with
  | nil => simp at hex
  | cons m rest ih =>
    rcases List.pairwise_cons.mp h with ⟨hm, hrest⟩
    by_cases hb : dateNotAfter m endDate
    · have hall : ∀ x ∈ rest, dateNotAfter x endDate = true :=
        fun x hx => dateNotAfter_of_laterRel (hm x hx) hb
      unfold toDateFilter
      rw [List.dropWhile_cons_of_neg (by simp [hb])]
      rw [List.filter_cons_of_pos (by simp [hb])]
      simp only [List.isEmpty_cons, if_false, Bool.false_eq_true]
      have hfr : List.filter (fun x => dateNotAfter x endDate) rest = rest := by
        rw [List.filter_eq_self]
        intro a ha
        simp [hall a ha]
      rw [hfr]
    · rw [Bool.not_eq_true] at hb
      have hex' : ∃ x ∈ rest, dateNotAfter x endDate = true := by
        rcases hex with ⟨x, hx, hxd⟩
        rcases List.mem_cons.mp hx with h' | h'
        · subst h'; rw [hb] at hxd; exact absurd hxd (by simp)
        · exact ⟨x, h', hxd⟩
      unfold toDateFilter
      rw [List.dropWhile_cons_of_pos (by simp [hb])]
      rw [List.filter_cons_of_neg (by simp [hb])]
      have := ih hrest hex'
      unfold toDateFilter at this
      rcases hdrop : rest.dropWhile (fun x => !(dateNotAfter x endDate)) with _ | ⟨y, ys⟩
      · rw [hdrop] at this
        simp only [List.isEmpty_nil, if_true] at this
        rcases hex' with ⟨x, hx, hxd⟩
        have : ∀ z ∈ rest, (fun x => !(dateNotAfter x endDate)) z = true :=
          List.dropWhile_eq_nil_iff.mp hdrop
        have hxd' := this x hx
        simp [hxd] at hxd'
      · rw [hdrop] at this
        simp only [List.isEmpty_cons, if_false, Bool.false_eq_true] at this
        simpa [hdrop] using this

theorem toDateFilter_eq_self (endDate : timeStamp)
    {items : List measurement}
    (hall : ∀ m ∈ items, dateNotAfter m endDate = false) :
    toDateFilter endDate items = items := by
  unfold toDateFilter
  have hdrop : items.dropWhile (fun m => !(dateNotAfter m endDate)) = [] := by
    rw [List.dropWhile_eq_nil_iff]
    intro x hx
    simp [hall x hx]
  rw [hdrop]
  simp

/-- A bound used in the C4 counterexample. -/
def cexBound : timeStamp := ⟨2020, 1, 1, 12, 0⟩

/-- A record whose timestamp equals `cexBound`. -/
def cexEqual : measurement := ⟨0, 120, 80, 60, 1, 1, 12, 0, 2020⟩

/-- A record whose timestamp is strictly after `cexBound`. -/
def cexLater : measurement := ⟨0, 120, 80, 60, 1, 1, 12, 0, 2021⟩

/-- C4 counterexample: the to-date loop keeps a record whose timestamp
equals the bound (the claim says records equal to `toDate` are excluded),
and when every record lies after the bound it keeps the whole collection
(the claim says the result is then empty). Both collections here are
trivially sorted descending and should map to `[]` under the claim. -/
theorem C4_counterexample :
    toDateFilter cexBound [cexEqual] = [cexEqual] ∧
      toDateFilter cexBound [cexLater] = [cexLater] ∧
      ([cexEqual] : List measurement) ≠ [] ∧
      ([cexLater] : List measurement) ≠ [] := by
  refine ⟨by decide, by decide, by decide, by decide⟩

/-- C4 amended: on a descending-sorted collection the from-date loop keeps
exactly the records with timestamp ≥ `fromDate` (so it is empty when all
records are earlier); the to-date loop keeps exactly the records with
timestamp ≤ `toDate` — records equal to `toDate` included — provided at
least one record satisfies that bound, and leaves the collection unchanged
when every record lies strictly after `toDate`. -/
theorem C4_date_filter (startDate endDate : timeStamp)
    {items : List measurement}
    (hsorted : items.Chain' (fun a b => isLater a b = true)) :
    fromDateFilter startDate items =
        items.filter (fun m => !(dateBefore m startDate)) ∧
      ((∃ m ∈ items, dateNotAfter m endDate = true) →
        toDateFilter endDate items =
          items.filter (fun m => dateNotAfter m endDate)) ∧
      ((∀ m ∈ items, dateNotAfter m endDate = false) →
        toDateFilter endDate items = items) := by
  have hp : items.Pairwise laterRel := List.chain'_iff_pairwise.mp hsorted
  exact ⟨fromDateFilter_eq_filter startDate hp,
    fun hex => toDateFilter_eq_filter endDate hp hex,
    fun hall => toDateFilter_eq_self endDate hall⟩

/-- C4 witness: the amended theorem applied to the concrete sorted
collection `[cexLater, cexEqual]` with both bounds equal to `cexBound`:
the from-filter keeps both records (both are ≥ the bound) and the
to-filter keeps exactly the record equal to the bound. -/
theorem C4_witness :
    fromDateFilter cexBound [cexLater, cexEqual] = [cexLater, cexEqual] ∧
      toDateFilter cexBound [cexLater, cexEqual] = [cexEqual] := by
  have h := @C4_date_filter cexBound cexBound
    [cexLater, cexEqual] (by rw [List.chain'_pair]; decide)
  constructor
  · rw [h.1]; decide
  · rw [h.2.1 ⟨cexEqual, by decide, by decide⟩]; decide

/-! Time-of-day filter, from the hour-filtering block in `main`. -/

/-- The `simpleTime` struct: a time of day used only for filter bounds. -/
structure simpleTime where
  hour   : Int
  minute : Int
deriving DecidableEq

/-- The `compare` closure in `main`'s hour filter: -1 / 1 / 0 as the
record's minutes-of-day are below / above / equal to the bound's. -/
def compareHM (m : measurement) (t : simpleTime) : Int :=
  if m.Hour * 60 + m.Minute < t.hour * 60 + t.minute then -1
  else if m.Hour * 60 + m.Minute > t.hour * 60 + t.minute then 1
  else 0

/-- The hour-filtering block in `main`. The block only runs when at least
one bound was supplied on the command line (modelled by `Option`); absent
bounds leave a zero-valued `simpleTime` in place, exactly as the Go code's
zero values, and the `inv` flag is set when both bounds are given and the
from bound is after the to bound in minutes of day. -/
def filterHours (fromTime toTime : Option simpleTime)
    (items : List measurement) : List measurement :=
  match fromTime, toTime with
  | none, none => items
  | _, _ =>
    let startTime := fromTime.getD ⟨0, 0⟩
    let endTime := toTime.getD ⟨0, 0⟩
    let inv : Bool := fromTime.isSome && toTime.isSome &&
      decide (startTime.hour * 60 + startTime.minute >
        endTime.hour * 60 + endTime.minute)
    items.filter fun data =>
      if inv then
        !(decide (compareHM data startTime = -1) &&
          decide (compareHM data endTime = 1))
      else
        !(fromTime.isSome && decide (compareHM data startTime = -1)) &&
          !(toTime.isSome && decide (compareHM data endTime = 1))

/-- Modelled from the spec: keep a record iff its minutes-of-day value is
inside the inclusive window, wrapping past midnight when both bounds are
given and fromTime > toTime, one-sided when one bound is given. -/
def specTimeWindow (fromTime toTime : Option simpleTime)
    (m : measurement) : Bool :=
  let mins := m.Hour * 60 + m.Minute
  match fromTime, toTime with
  | none, none => true
  | some f, none => decide (f.hour * 60 + f.minute ≤ mins)
  | none, some t => decide (mins ≤ t.hour * 60 + t.minute)
  | some f, some t =>
    if f.hour * 60 + f.minute ≤ t.hour * 60 + t.minute then
      decide (f.hour * 60 + f.minute ≤ mins ∧ mins ≤ t.hour * 60 + t.minute)
    else
      decide ((f.hour * 60 + f.minute ≤ mins ∧ mins ≤ 1439) ∨
        (0 ≤ mins ∧ mins ≤ t.hour * 60 + t.minute))

theorem compareHM_eq_neg_one (m : measurement) (t : simpleTime) :
    compareHM m t = -1 ↔ m.Hour * 60 + m.Minute < t.hour * 60 + t.minute := by
  unfold compareHM
  split_ifs <;> simp <;> omega

theorem compareHM_eq_one (m : measurement) (t : simpleTime) :
    compareHM m t = 1 ↔ m.Hour * 60 + m.Minute > t.hour * 60 + t.minute := by
  unfold compareHM
  split_ifs <;> simp <;> omega

/-- C5: on records with in-range hour and minute fields, the hour filter
keeps exactly the records inside the inclusive `[fromTime, toTime]`
minutes-of-day window, interpreted as the wrapping union
`[fromTime, 1439] ∪ [0, toTime]` when both bounds are given with
fromTime > toTime, and one-sided when only one bound is given. -/
theorem C5_time_filter (fromTime toTime : Option simpleTime)
    (items : List measurement)
    (hrange : ∀ m ∈ items,
      0 ≤ m.Hour ∧ m.Hour ≤ 23 ∧ 0 ≤ m.Minute ∧ m.Minute ≤ 59) :
    filterHours fromTime toTime items =
      items.filter (specTimeWindow fromTime toTime) := by
  rcases fromTime with _ | f <;> rcases toTime with _ | t
  · exact (List.filter_eq_self.mpr fun x _ => rfl).symm
  · unfold filterHours
    apply List.filter_congr
    intro m hm
    obtain ⟨h1, h2, h3, h4⟩ := hrange m hm
    simp only [specTimeWindow, Option.getD_some, Option.getD_none,
      Option.isSome_none, Option.isSome_some, Bool.false_and, Bool.and_false,
      Bool.false_eq_true, if_false, Bool.true_and, Bool.not_false, Bool.and_true]
    rw [Bool.eq_iff_iff]
    simp only [Bool.and_eq_true, Bool.not_eq_true', decide_eq_true_eq,
      decide_eq_false_iff_not, compareHM_eq_neg_one, compareHM_eq_one]
    omega
  · unfold filterHours
    apply List.filter_congr
    intro m hm
    obtain ⟨h1, h2, h3, h4⟩ := hrange m hm
    simp only [specTimeWindow, Option.getD_some, Option.getD_none,
      Option.isSome_none, Option.isSome_some, Bool.false_and, Bool.and_false,
      Bool.false_eq_true, if_false, Bool.true_and, Bool.not_false, Bool.and_true]
    rw [Bool.eq_iff_iff]
    simp only [Bool.and_eq_true, Bool.not_eq_true', decide_eq_true_eq,
      decide_eq_false_iff_not, compareHM_eq_neg_one, compareHM_eq_one]
    omega
  · unfold filterHours
    apply List.filter_congr
    intro m hm
    obtain ⟨h1, h2, h3, h4⟩ := hrange m hm
    by_cases hinv : f.hour * 60 + f.minute > t.hour * 60 + t.minute
    · simp only [specTimeWindow, Option.getD_some, Option.isSome_some,
        Bool.true_and, hinv, decide_True, if_true,
        if_neg (show ¬ f.hour * 60 + f.minute ≤ t.hour * 60 + t.minute by omega)]
      rw [Bool.eq_iff_iff]
      simp only [Bool.and_eq_true, Bool.not_eq_true', decide_eq_true_eq,
        decide_eq_false_iff_not, compareHM_eq_neg_one, compareHM_eq_one,
        Bool.and_eq_false_iff]
      omega
    · simp only [specTimeWindow, Option.getD_some, Option.isSome_some,
        Bool.true_and, hinv, decide_False, Bool.false_eq_true, if_false,
        if_pos (show f.hour * 60 + f.minute ≤ t.hour * 60 + t.minute by omega)]
      rw [Bool.eq_iff_iff]
      simp only [Bool.and_eq_true, Bool.not_eq_true', decide_eq_true_eq,
        decide_eq_false_iff_not, compareHM_eq_neg_one, compareHM_eq_one]
      omega

/-- A record at 23:30, inside the wrapping 21:00–09:00 window. -/
def rec2330 : measurement := ⟨0, 120, 80, 60, 1, 2, 23, 30, 2020⟩

/-- A record at 06:00, inside the wrapping 21:00–09:00 window. -/
def rec0600 : measurement := ⟨0, 120, 80, 60, 1, 2, 6, 0, 2020⟩

/-- A record at 15:00, outside the wrapping 21:00–09:00 window. -/
def rec1500 : measurement := ⟨0, 120, 80, 60, 1, 1, 15, 0, 2020⟩

/-- C5 witness: for fromTime 21:00 and toTime 09:00 the filter keeps the
records at 23:30 and 06:00 and excludes the record at 15:00. -/
theorem C5_witness :
    filterHours (some ⟨21, 0⟩) (some ⟨9, 0⟩) [rec2330, rec0600, rec1500] =
      [rec2330, rec0600] := by
  rw [C5_time_filter _ _ _ (by decide)]
  decide

/-! Statistics engine: `average`, `intMedian`, `median`, `stdDeviation`,
`avgAbsoluteDeviation` from the source. Go float64 arithmetic is modelled
by exact rationals; `int(x)` is truncation toward zero and
`int(math.Sqrt(x))` is the integer square root. -/

/-- The zero value of the Go `measurement` struct. -/
def zeroMeasurement : measurement := ⟨0, 0, 0, 0, 0, 0, 0, 0, 0⟩

/-- Go `int(x)` conversion of a float: truncation toward zero. -/
def truncQ (q : ℚ) : Int := if 0 ≤ q then ⌊q⌋ else ⌈q⌉

/-- `int(math.Sqrt(q))` for `q ≥ 0` under exact-real semantics: `⌊√q⌋`,
computed as the integer square root of `⌊q⌋`. -/
def intSqrtQ (q : ℚ) : Int := (Nat.sqrt ⌊q⌋.toNat : Int)

/-- The `roundDivision` closure in `average`: `int(0.5 + a/b)`. -/
def roundDivision (a b : Int) : Int :=
  truncQ ((1 : ℚ) / 2 + (a : ℚ) / (b : ℚ))

/-- `average` from the source: accumulate the three pressure fields and the
count, fail on an empty set, otherwise round-divide each sum. -/
def average (items : List measurement) : measurement × Option String :=
  let sumSys := (items.map (fun d => d.Systolic)).sum
  let sumDia := (items.map (fun d => d.Diastolic)).sum
  let sumPul := (items.map (fun d => d.Pulse)).sum
  let avgCount : Int := items.length
  if avgCount = 0 then
    ({ zeroMeasurement with
        Systolic := sumSys
        Diastolic := sumDia
        Pulse := sumPul }, some "cannot compute average: empty set")
  else
    ({ zeroMeasurement with
        Systolic := roundDivision sumSys avgCount
        Diastolic := roundDivision sumDia avgCount
        Pulse := roundDivision sumPul avgCount }, none)

/-- `intMedian` from the source; Go integer division truncates toward
zero, hence `Int.tdiv`. -/
def intMedian (numbers : List Int) : Int :=
  let middle := numbers.length / 2
  let med := numbers.getD middle 0
  if numbers.length % 2 = 0 then Int.tdiv (med + numbers.getD (middle - 1) 0) 2
  else med

/-- `median` from the source: fail on an empty set, otherwise sort each
projected field ascending (`sort.Ints`) and take `intMedian`. -/
def median (items : List measurement) : measurement × Option String :=
  if items.length = 0 then
    (zeroMeasurement, some "cannot compute average: empty set")
  else
    let sys := List.insertionSort (fun a b : Int => a ≤ b)
      (items.map (fun d => d.Systolic))
    let dia := List.insertionSort (fun a b : Int => a ≤ b)
      (items.map (fun d => d.Diastolic))
    let pul := List.insertionSort (fun a b : Int => a ≤ b)
      (items.map (fun d => d.Pulse))
    ({ zeroMeasurement with
        Systolic := intMedian sys
        Diastolic := intMedian dia
        Pulse := intMedian pul }, none)

/-- `stdDeviation` from the source: fail when the set has at most one
element, otherwise population standard deviation of each field against
`average`, truncated to int. -/
def stdDeviation (items : List measurement) : measurement × Option String :=
  if items.length ≤ 1 then
    (zeroMeasurement, some "cannot compute deviation: set too small")
  else
    match average items with
    | (_, some e) => (zeroMeasurement, some e)
    | (avg, none) =>
      let sumSys := (items.map
        (fun d => ((d.Systolic - avg.Systolic : Int) : ℚ) ^ 2)).sum
      let sumDia := (items.map
        (fun d => ((d.Diastolic - avg.Diastolic : Int) : ℚ) ^ 2)).sum
      let sumPul := (items.map
        (fun d => ((d.Pulse - avg.Pulse : Int) : ℚ) ^ 2)).sum
      ({ zeroMeasurement with
          Systolic := intSqrtQ (sumSys / (items.length : ℚ))
          Diastolic := intSqrtQ (sumDia / (items.length : ℚ))
          Pulse := intSqrtQ (sumPul / (items.length : ℚ)) }, none)

/-- `avgAbsoluteDeviation` from the source: fail when the set has at most
one element, otherwise mean absolute deviation of each field against
`average`, truncated to int. -/
def avgAbsoluteDeviation (items : List measurement) : measurement × Option String :=
  if items.length ≤ 1 then
    (zeroMeasurement, some "cannot compute deviation: set too small")
  else
    match average items with
    | (_, some e) => (zeroMeasurement, some e)
    | (avg, none) =>
      let sumSys := (items.map
        (fun d => |((d.Systolic - avg.Systolic : Int) : ℚ)|)).sum
      let sumDia := (items.map
        (fun d => |((d.Diastolic - avg.Diastolic : Int) : ℚ)|)).sum
      let sumPul := (items.map
        (fun d => |((d.Pulse - avg.Pulse : Int) : ℚ)|)).sum
      ({ zeroMeasurement with
          Systolic := truncQ (sumSys / (items.length : ℚ))
          Diastolic := truncQ (sumDia / (items.length : ℚ))
          Pulse := truncQ (sumPul / (items.length : ℚ)) }, none)

theorem average_snd_none {items : List measurement} (h : items ≠ []) :
    (average items).2 = none := by
  unfold average
  rw [if_neg (by simpa using h)]

theorem median_snd_none {items : List measurement} (h : items ≠ []) :
    (median items).2 = none := by
  unfold median
  rw [if_neg (by simpa using h)]

theorem stdDeviation_snd_none {items : List measurement}
    (h : 2 ≤ items.length) : (stdDeviation items).2 = none := by
  have hne : items ≠ [] := by
    intro he; subst he; simp at h
  have ha := average_snd_none hne
  unfold stdDeviation
  rw [if_neg (by omega)]
  rcases haveq : average items with ⟨avg, opt⟩
  rw [haveq] at ha
  simp only at ha
  subst ha
  rfl

theorem avgAbsoluteDeviation_snd_none {items : List measurement}
    (h : 2 ≤ items.length) : (avgAbsoluteDeviation items).2 = none := by
  have hne : items ≠ [] := by
    intro he; subst he; simp at h
  have ha := average_snd_none hne
  unfold avgAbsoluteDeviation
  rw [if_neg (by omega)]
  rcases haveq : average items with ⟨avg, opt⟩
  rw [haveq] at ha
  simp only at ha
  subst ha
  rfl

/-- C8: `average` and `median` signal an error exactly on an empty
collection and `stdDeviation` and `avgAbsoluteDeviation` exactly on a
collection with at most one element; in every error case the zero-valued
measurement is returned alongside the error, the two error values are
distinct, and on inputs satisfying the precondition no error is
returned. -/
theorem C8_stats_errors (items : List measurement) :
    ((average items).2 = none ↔ items ≠ []) ∧
      (items = [] → average items =
        (zeroMeasurement, some "cannot compute average: empty set")) ∧
      ((median items).2 = none ↔ items ≠ []) ∧
      (items = [] → median items =
        (zeroMeasurement, some "cannot compute average: empty set")) ∧
      ((stdDeviation items).2 = none ↔ 2 ≤ items.length) ∧
      (items.length ≤ 1 → stdDeviation items =
        (zeroMeasurement, some "cannot compute deviation: set too small")) ∧
      ((avgAbsoluteDeviation items).2 = none ↔ 2 ≤ items.length) ∧
      (items.length ≤ 1 → avgAbsoluteDeviation items =
        (zeroMeasurement, some "cannot compute deviation: set too small")) ∧
      ("cannot compute average: empty set" : String) ≠
        "cannot compute deviation: set too small" := by
  refine ⟨⟨?_, average_snd_none⟩, ?_, ⟨?_, median_snd_none⟩, ?_,
    ⟨?_, stdDeviation_snd_none⟩, ?_, ⟨?_, avgAbsoluteDeviation_snd_none⟩, ?_,
    by decide⟩
  · intro h he
    subst he
    simp [average] at h
  · intro he; subst he; rfl
  · intro h he
    subst he
    simp [median] at h
  · intro he; subst he; rfl
  · intro h
    by_contra hlt
    unfold stdDeviation at h
    rw [if_pos (by omega)] at h
    simp at h
  · intro hle
    unfold stdDeviation
    rw [if_pos hle]
  · intro h
    by_contra hlt
    unfold avgAbsoluteDeviation at h
    rw [if_pos (by omega)] at h
    simp at h
  · intro hle
    unfold avgAbsoluteDeviation
    rw [if_pos hle]

/-- C8 witness: the theorem applied at concrete inputs: the empty set
makes `average` fail with the empty-set error and zero measurement, a
singleton makes `stdDeviation` fail with the set-too-small error, and a
two-element set makes `stdDeviation` succeed while a nonempty set makes
`average` succeed. -/
theorem C8_stats_errors_witness :
    average [] = (zeroMeasurement, some "cannot compute average: empty set") ∧
      stdDeviation [zeroMeasurement] =
        (zeroMeasurement, some "cannot compute deviation: set too small") ∧
      (average [zeroMeasurement]).2 = none ∧
      (stdDeviation [zeroMeasurement, rec1500]).2 = none := by
  refine ⟨(C8_stats_errors []).2.1 rfl,
    (C8_stats_errors [zeroMeasurement]).2.2.2.2.2.1 (by decide),
    (C8_stats_errors [zeroMeasurement]).1.mpr (by decide),
    (C8_stats_errors [zeroMeasurement, rec1500]).2.2.2.2.1.mpr (by decide)⟩

/-! Protocol client: `getData` and `fetchData` over a scripted byte
channel. -/

/-- One scripted `Read` outcome: an I/O error or the bytes delivered. -/
abbrev ReadOutcome := Except String (List Nat)

instance : DecidableEq ReadOutcome := fun a b =>
  match a, b with
  | .ok x, .ok y => decidable_of_iff (x = y) (by simp)
  | .error x, .error y => decidable_of_iff (x = y) (by simp)
  | .ok _, .error _ => isFalse (by simp)
  | .error _, .ok _ => isFalse (by simp)

/-- The byte-channel state: pending `Read` outcomes, pending `Write`
outcomes (an exhausted write script means success), and the log of
queries written so far. -/
structure ChanState where
  readScript  : List ReadOutcome
  writeScript : List (Option String)
  written     : List (List Nat)
deriving DecidableEq

/-- One `s.Write(q)` call: pop the next scripted outcome and log the
query. -/
def doWrite (c : ChanState) (q : List Nat) : Option String × ChanState :=
  match c.writeScript with
  | [] => (none, { c with written := c.written ++ [q] })
  | w :: ws => (w, { c with writeScript := ws, written := c.written ++ [q] })

/-- The result of `getData`: on success the total byte count and the
buffer contents; `fatal` models the `log.Fatal(err)` call on a read error
(the process exits, the error is never returned); `hang` models a
blocking read with no scripted data left. -/
inductive GetDataResult where
  | ok (n : Nat) (buf : List Nat)
  | fatal (e : String)
  | hang
deriving DecidableEq

/-- `getData` from the source: loop reading until at least `size` bytes
have accumulated; each `Read` may deliver any number of bytes; a read
error is fatal. Returns the result and the remaining read script. -/
def getData (size : Nat) : List ReadOutcome → Nat → List Nat →
    GetDataResult × List ReadOutcome
  | [], t, buf => if size ≤ t then (.ok t buf, []) else (.hang, [])
  | r :: rest, t, buf =>
    if size ≤ t then (.ok t buf, r :: rest)
    else
      match r with
      | .error e => (.fatal e, rest)
      | .ok bs => getData size rest (t + bs.length) (buf ++ bs)

/-- `getData` acting on a channel state. -/
def getDataC (size : Nat) (c : ChanState) : GetDataResult × ChanState :=
  let p := getData size c.readScript 0 []
  (p.1, { c with readScript := p.2 })

/-- The result of a fetch. Go returns the pair `(items, err)`, so an
error return carries the accumulated items; a read error instead
terminates the process (`fatal`), and an exhausted read script blocks
forever (`hang`). -/
inductive FetchResult where
  | ok (items : List measurement)
  | err (items : List measurement) (e : String)
  | fatal (e : String)
  | hang
deriving DecidableEq

/-- Decode one record response positionally, from the Records phase of
`fetchData`. -/
def decodeRecord (buf : List Nat) : measurement :=
  { Header := (buf.getD 0 0 : Int)
    Systolic := (buf.getD 1 0 : Int) + 25
    Diastolic := (buf.getD 2 0 : Int) + 25
    Pulse := (buf.getD 3 0 : Int)
    Month := (buf.getD 4 0 : Int)
    Day := (buf.getD 5 0 : Int)
    Hour := (buf.getD 6 0 : Int)
    Minute := (buf.getD 7 0 : Int)
    Year := (buf.getD 8 0 : Int) + 2000 }

/-- The Records loop of `fetchData`: `remaining` iterations left, `i` the
number of records already fetched; each iteration writes the two-byte
query `(0xa3, i+1)` and reads 9 bytes. -/
def fetchRecords : Nat → Nat → ChanState → List measurement →
    FetchResult × ChanState
  | 0, _, c, acc => (.ok (mergeItems acc []), c)
  | k + 1, i, c, acc =>
    match doWrite c [0xa3, i + 1] with
    | (some e, c1) => (.err acc e, c1)
    | (none, c1) =>
      match getDataC 9 c1 with
      | (.fatal e, c2) => (.fatal e, c2)
      | (.hang, c2) => (.hang, c2)
      | (.ok _ buf, c2) =>
        fetchRecords k (i + 1) c2 (acc ++ [decodeRecord buf])

/-- `fetchData` from the source: handshake (write 0xaa, read 1 byte,
expect 0x55), description (write 0xa4, read 32 bytes, unused), count
(write 0xa2, read 1 byte), then the Records loop, finally merging the
accumulated records against an empty list. -/
def fetchData (c : ChanState) : FetchResult × ChanState :=
  match doWrite c [0xaa] with
  | (some e, c1) => (.err [] e, c1)
  | (none, c1) =>
    match getDataC 1 c1 with
    | (.fatal e, c2) => (.fatal e, c2)
    | (.hang, c2) => (.hang, c2)
    | (.ok n buf, c2) =>
      if n = 1 ∧ buf.getD 0 0 = 0x55 then
        match doWrite c2 [0xa4] with
        | (some e, c3) => (.err [] e, c3)
        | (none, c3) =>
          match getDataC 32 c3 with
          | (.fatal e, c4) => (.fatal e, c4)
          | (.hang, c4) => (.hang, c4)
          | (.ok _ _, c4) =>
            match doWrite c4 [0xa2] with
            | (some e, c5) => (.err [] e, c5)
            | (none, c5) =>
              match getDataC 1 c5 with
              | (.fatal e, c6) => (.fatal e, c6)
              | (.hang, c6) => (.hang, c6)
              | (.ok n2 buf2, c6) =>
                if n2 = 1 then fetchRecords (buf2.getD 0 0) 0 c6 []
                else (.err [] "no measurement found", c6)
      else (.err [] "handshake failed", c2)

theorem getData_done {size t : Nat} (h : size ≤ t)
    (reads : List ReadOutcome) (buf : List Nat) :
    getData size reads t buf = (.ok t buf, reads) := by
  cases reads <;> simp [getData, h]

theorem getData_step {size t : Nat} (h : ¬ size ≤ t)
    (bs : List Nat) (rest : List ReadOutcome) (buf : List Nat) :
    getData size (Except.ok bs :: rest) t buf =
      getData size rest (t + bs.length) (buf ++ bs) := by
  simp [getData, h]

theorem getData_fatal {size t : Nat} (h : ¬ size ≤ t)
    (e : String) (rest : List ReadOutcome) (buf : List Nat) :
    getData size (Except.error e :: rest) t buf = (.fatal e, rest) := by
  simp [getData, h]

/-- The record queries issued by the Records loop starting at index `i`:
`(0xa3, i+j+1)` for `j < n`. -/
def recordQueries (i n : Nat) : List (List Nat) :=
  (List.range n).map (fun j => [0xa3, i + j + 1])

theorem recordQueries_succ (i n : Nat) :
    recordQueries i (n + 1) = [0xa3, i + 1] :: recordQueries (i + 1) n := by
  unfold recordQueries
  rw [List.range_succ_eq_map, List.map_cons, List.map_map]
  refine congrArg₂ _ (by simp) ?_
  apply List.map_congr_left
  intro j _
  simp only [Function.comp_apply]
  refine congrArg _ (congrArg₂ _ (by omega) rfl)

theorem recordQueries_zero_left (n : Nat) :
    recordQueries 0 n = (List.range n).map (fun i => [0xa3, i + 1]) := by
  unfold recordQueries
  apply List.map_congr_left
  intro j _
  simp

theorem fetchRecords_ok (records : List (List Nat)) :
    ∀ (i : Nat) (w : List (List Nat)) (acc : List measurement),
      (∀ r ∈ records, r.length = 9) →
      fetchRecords records.length i ⟨records.map Except.ok, [], w⟩ acc =
        (.ok (mergeItems (acc ++ records.map decodeRecord) []),
          ⟨[], [], w ++ recordQueries i records.length⟩) := by
  induction records with
  | nil =>
    intro i w acc _
    simp [fetchRecords, recordQueries]
  | cons r rs ih =>
    intro i w acc h9
    have hr : r.length = 9 := h9 r (List.mem_cons_self r rs)
    have h9' : ∀ x ∈ rs, x.length = 9 :=
      fun x hx => h9 x (List.mem_cons_of_mem r hx)
    show fetchRecords (rs.length + 1) i _ acc = _
    simp only [fetchRecords, doWrite, getDataC, List.map_cons]
    rw [getData_step (by omega), getData_done (by omega : 9 ≤ 0 + r.length)]
    simp only [List.nil_append]
    rw [ih (i + 1) (w ++ [[0xa3, i + 1]]) (acc ++ [decodeRecord r]) h9']
    rw [List.length_cons, recordQueries_succ]
    simp

theorem fetchData_good_phases (N : Nat) (desc : List Nat)
    (rest : List ReadOutcome) (hdesc : desc.length = 32) :
    fetchData ⟨[Except.ok [0x55], Except.ok desc, Except.ok [N]] ++ rest,
        [], []⟩ =
      fetchRecords N 0 ⟨rest, [], [[0xaa], [0xa4], [0xa2]]⟩ [] := by
  simp [fetchData, doWrite, getDataC, getData_step, getData_done, hdesc]

/-- C2: on a channel whose handshake read returns the single byte 0x55 and
whose count phase reports N records followed by N 9-byte record responses,
`fetchData` issues the handshake, description and count queries followed
by the N two-byte record requests `(0xa3, i)` for i = 1..N, decodes each
response positionally, and returns the records passed through `mergeItems`
against an empty second input, hence sorted descending-chronologically. -/
theorem C2_fetchData_decode (N : Nat) (desc : List Nat)
    (records : List (List Nat)) (hdesc : desc.length = 32)
    (hlen : records.length = N) (h9 : ∀ r ∈ records, r.length = 9) :
    (fetchData ⟨[Except.ok [0x55], Except.ok desc, Except.ok [N]] ++
        records.map Except.ok, [], []⟩).1 =
      .ok (mergeItems (records.map decodeRecord) []) ∧
      (fetchData ⟨[Except.ok [0x55], Except.ok desc, Except.ok [N]] ++
        records.map Except.ok, [], []⟩).2.written =
        [[0xaa], [0xa4], [0xa2]] ++
          (List.range N).map (fun i => [0xa3, i + 1]) ∧
      (mergeItems (records.map decodeRecord) []).Chain'
        (fun a b => isLater a b = true) ∧
      (∀ b0 b1 b2 b3 b4 b5 b6 b7 b8 : Nat,
        decodeRecord [b0, b1, b2, b3, b4, b5, b6, b7, b8] =
          ⟨(b0 : Int), (b1 : Int) + 25, (b2 : Int) + 25, (b3 : Int),
            (b4 : Int), (b5 : Int), (b6 : Int), (b7 : Int),
            (b8 : Int) + 2000⟩) := by
  subst hlen
  rw [fetchData_good_phases _ _ _ hdesc,
    fetchRecords_ok records 0 [[0xaa], [0xa4], [0xa2]] [] h9]
  refine ⟨by simp, ?_, ?_, ?_⟩
  · simp [recordQueries_zero_left]
  · exact (mergeItems_pairwise_nodup _ _).1.chain'
  · intro b0 b1 b2 b3 b4 b5 b6 b7 b8
    rfl

/-- C2 witness: a concrete channel reporting 3 records; the fetch returns
the 3 decoded measurements sorted descending-chronologically and the query
log is the three phase queries followed by (0xa3, 1..3). -/
theorem C2_witness :
    (fetchData ⟨[Except.ok [0x55], Except.ok (List.replicate 32 0),
        Except.ok [3],
        Except.ok [7, 95, 55, 70, 6, 1, 10, 30, 16],
        Except.ok [7, 95, 55, 70, 6, 2, 10, 30, 16],
        Except.ok [7, 95, 55, 70, 5, 1, 10, 30, 16]], [], []⟩).1 =
      .ok [⟨7, 120, 80, 70, 6, 2, 10, 30, 2016⟩,
        ⟨7, 120, 80, 70, 6, 1, 10, 30, 2016⟩,
        ⟨7, 120, 80, 70, 5, 1, 10, 30, 2016⟩] ∧
      (fetchData ⟨[Except.ok [0x55], Except.ok (List.replicate 32 0),
        Except.ok [3],
        Except.ok [7, 95, 55, 70, 6, 1, 10, 30, 16],
        Except.ok [7, 95, 55, 70, 6, 2, 10, 30, 16],
        Except.ok [7, 95, 55, 70, 5, 1, 10, 30, 16]], [], []⟩).2.written =
      [[0xaa], [0xa4], [0xa2], [0xa3, 1], [0xa3, 2], [0xa3, 3]] := by
  have h := C2_fetchData_decode 3 (List.replicate 32 0)
    [[7, 95, 55, 70, 6, 1, 10, 30, 16],
     [7, 95, 55, 70, 6, 2, 10, 30, 16],
     [7, 95, 55, 70, 5, 1, 10, 30, 16]]
    (by decide) (by decide) (by decide)
  simp only [List.map_cons, List.map_nil, List.cons_append,
    List.nil_append] at h
  constructor
  · rw [h.1]; decide
  · rw [h.2.1]; decide

theorem fetchRecords_succ (k i : Nat) (c : ChanState) (acc : List measurement) :
    fetchRecords (k + 1) i c acc =
      match doWrite c [0xa3, i + 1] with
      | (some e, c1) => (.err acc e, c1)
      | (none, c1) =>
        match getDataC 9 c1 with
        | (.fatal e, c2) => (.fatal e, c2)
        | (.hang, c2) => (.hang, c2)
        | (.ok _ buf, c2) =>
          fetchRecords k (i + 1) c2 (acc ++ [decodeRecord buf]) := rfl

theorem fetchRecords_err (records : List (List Nat)) :
    ∀ (k i : Nat) (acc : List measurement) (w : List (List Nat))
      (rs' : List ReadOutcome) (ws' : List (Option String)) (e : String),
      (∀ r ∈ records, r.length = 9) →
      (fetchRecords (records.length + k + 1) i
        ⟨records.map Except.ok ++ rs',
          List.replicate records.length none ++ some e :: ws', w⟩ acc).1 =
        .err (acc ++ records.map decodeRecord) e := by
  induction records with
  | nil =>
    intro k i acc w rs' ws' e _
    simp only [List.length_nil, Nat.zero_add, List.map_nil, List.nil_append,
      List.replicate_zero]
    rw [fetchRecords_succ]
    simp [doWrite]
  | cons r rs ih =>
    intro k i acc w rs' ws' e h9
    have hr : r.length = 9 := h9 r (List.mem_cons_self r rs)
    have h9' : ∀ x ∈ rs, x.length = 9 :=
      fun x hx => h9 x (List.mem_cons_of_mem r hx)
    rw [List.length_cons,
      (by omega : rs.length + 1 + k + 1 = rs.length + k + 1 + 1),
      fetchRecords_succ]
    simp only [List.map_cons, List.cons_append, List.replicate_succ, doWrite,
      getDataC]
    rw [getData_step (by omega), getData_done (by omega : 9 ≤ 0 + r.length)]
    simp only [List.nil_append]
    have := ih k (i + 1) (acc ++ [decodeRecord r]) (w ++ [[0xa3, i + 1]])
      rs' ws' e h9'
    simpa using this

theorem fetchRecords_fatal (records : List (List Nat)) :
    ∀ (k i : Nat) (acc : List measurement) (w : List (List Nat))
      (rs' : List ReadOutcome) (e : String),
      (∀ r ∈ records, r.length = 9) →
      (fetchRecords (records.length + k + 1) i
        ⟨records.map Except.ok ++ Except.error e :: rs', [], w⟩ acc).1 =
        .fatal e := by
  induction records with
  | nil =>
    intro k i acc w rs' e _
    simp only [List.length_nil, Nat.zero_add, List.map_nil, List.nil_append]
    rw [fetchRecords_succ]
    simp [doWrite, getDataC, getData_fatal]
  | cons r rs ih =>
    intro k i acc w rs' e h9
    have hr : r.length = 9 := h9 r (List.mem_cons_self r rs)
    have h9' : ∀ x ∈ rs, x.length = 9 :=
      fun x hx => h9 x (List.mem_cons_of_mem r hx)
    rw [List.length_cons,
      (by omega : rs.length + 1 + k + 1 = rs.length + k + 1 + 1),
      fetchRecords_succ]
    simp only [List.map_cons, List.cons_append, doWrite, getDataC]
    rw [getData_step (by omega), getData_done (by omega : 9 ≤ 0 + r.length)]
    simp only [List.nil_append]
    have := ih k (i + 1) (acc ++ [decodeRecord r]) (w ++ [[0xa3, i + 1]])
      rs' e h9'
    simpa using this

/-- C7 counterexample: on a channel where the second record-phase write
fails after one record was decoded, `fetchData` returns the partially
accumulated records ALONGSIDE the error (the Go `return items, err`), not
an empty collection; and on a channel whose first read fails, `fetchData`
calls `log.Fatal` (modelled as the `fatal` outcome) so the error is never
returned to the caller as the result of the fetch. -/
theorem C7_counterexample :
    (fetchData ⟨[Except.ok [0x55], Except.ok (List.replicate 32 0),
        Except.ok [2], Except.ok [1, 2, 3, 4, 5, 6, 7, 8, 9]],
      [none, none, none, none, some "write error"], []⟩).1 =
      .err [⟨1, 27, 28, 4, 5, 6, 7, 8, 2009⟩] "write error" ∧
      ([(⟨1, 27, 28, 4, 5, 6, 7, 8, 2009⟩ : measurement)] ≠ []) ∧
      (fetchData ⟨[Except.error "read error"], [], []⟩).1 =
        .fatal "read error" := by
  exact ⟨by decide, by decide, by decide⟩

/-- C7 amended: every write failure on the byte channel, in any phase, is
returned to the caller as the error result of that fetch (never
swallowed); a write failure in the Records phase returns the records
decoded so far alongside the error; a read failure in any phase calls
`log.Fatal`, terminating the process without returning the error to the
caller. There is no retry anywhere. -/
theorem C7_error_propagation :
    (∀ (e : String) ws rs w0,
      (fetchData ⟨rs, some e :: ws, w0⟩).1 = .err [] e) ∧
    (∀ (e : String) ws rs w0,
      (fetchData ⟨Except.ok [0x55] :: rs, none :: some e :: ws, w0⟩).1 =
        .err [] e) ∧
    (∀ (e : String) ws rs w0 (desc : List Nat), desc.length = 32 →
      (fetchData ⟨[Except.ok [0x55], Except.ok desc] ++ rs,
        none :: none :: some e :: ws, w0⟩).1 = .err [] e) ∧
    (∀ (e : String) (N : Nat) (records : List (List Nat)) (desc : List Nat)
        ws rs w0, desc.length = 32 → (∀ r ∈ records, r.length = 9) →
        records.length < N →
      (fetchData ⟨[Except.ok [0x55], Except.ok desc, Except.ok [N]] ++
          records.map Except.ok ++ rs,
        none :: none :: none ::
          (List.replicate records.length none ++ some e :: ws), w0⟩).1 =
        .err (records.map decodeRecord) e) ∧
    (∀ (e : String) rs w0,
      (fetchData ⟨Except.error e :: rs, [], w0⟩).1 = .fatal e) ∧
    (∀ (e : String) rs w0,
      (fetchData ⟨[Except.ok [0x55], Except.error e] ++ rs, [], w0⟩).1 =
        .fatal e) ∧
    (∀ (e : String) rs w0 (desc : List Nat), desc.length = 32 →
      (fetchData ⟨[Except.ok [0x55], Except.ok desc, Except.error e] ++ rs,
        [], w0⟩).1 = .fatal e) ∧
    (∀ (e : String) (N : Nat) (records : List (List Nat)) (desc : List Nat)
        rs w0, desc.length = 32 → (∀ r ∈ records, r.length = 9) →
        records.length < N →
      (fetchData ⟨[Except.ok [0x55], Except.ok desc, Except.ok [N]] ++
          records.map Except.ok ++ Except.error e :: rs, [], w0⟩).1 =
        .fatal e) := by
  refine ⟨?_, ?_, ?_, ?_, ?_, ?_, ?_, ?_⟩
  · intro e ws rs w0
    simp [fetchData, doWrite]
  · intro e ws rs w0
    simp [fetchData, doWrite, getDataC, getData_step, getData_done]
  · intro e ws rs w0 desc hdesc
    simp [fetchData, doWrite, getDataC, getData_step, getData_done, hdesc]
  · intro e N records desc ws rs w0 hdesc h9 hlt
    obtain ⟨k, rfl⟩ : ∃ k, N = records.length + k + 1 :=
      ⟨N - records.length - 1, by omega⟩
    simp only [fetchData, doWrite, getDataC, List.cons_append,
      List.append_assoc]
    rw [getData_step (by omega), getData_done (by simp)]
    simp only [List.nil_append, List.getD]
    rw [getData_step (by omega), getData_done (by omega : 32 ≤ 0 + desc.length)]
    simp only [List.nil_append]
    rw [getData_step (by omega), getData_done (by simp)]
    simp only [List.nil_append, List.getD]
    have := fetchRecords_err records k 0 [] (w0 ++ [[0xaa], [0xa4], [0xa2]]) rs ws e h9
    simp only [List.nil_append] at this
    simpa using this
  · intro e rs w0
    simp [fetchData, doWrite, getDataC, getData_fatal]
  · intro e rs w0
    simp [fetchData, doWrite, getDataC, getData_step, getData_done,
      getData_fatal]
  · intro e rs w0 desc hdesc
    simp [fetchData, doWrite, getDataC, getData_step, getData_done,
      getData_fatal, hdesc]
  · intro e N records desc rs w0 hdesc h9 hlt
    obtain ⟨k, rfl⟩ : ∃ k, N = records.length + k + 1 :=
      ⟨N - records.length - 1, by omega⟩
    simp only [fetchData, doWrite, getDataC, List.cons_append,
      List.append_assoc]
    rw [getData_step (by omega), getData_done (by simp)]
    simp only [List.nil_append, List.getD]
    rw [getData_step (by omega), getData_done (by omega : 32 ≤ 0 + desc.length)]
    simp only [List.nil_append]
    rw [getData_step (by omega), getData_done (by simp)]
    simp only [List.nil_append, List.getD]
    have := fetchRecords_fatal records k 0 [] (w0 ++ [[0xaa], [0xa4], [0xa2]]) rs e h9
    simpa using this

/-- C7 witness: the amended theorem at concrete channels: a handshake
write failure is returned as the fetch error; a record-phase write
failure after one decoded record returns that record alongside the error;
a count-phase read failure is fatal (process exit). -/
theorem C7_witness :
    (fetchData ⟨[], [some "open failed"], []⟩).1 = .err [] "open failed" ∧
      (fetchData ⟨[Except.ok [0x55], Except.ok (List.replicate 32 0),
          Except.ok [3], Except.ok [9, 8, 7, 6, 5, 4, 3, 2, 1]],
        none :: none :: none :: (List.replicate 1 none ++ [some "boom"]),
        []⟩).1 = .err [⟨9, 33, 32, 6, 5, 4, 3, 2, 2001⟩] "boom" ∧
      (fetchData ⟨[Except.ok [0x55], Except.ok (List.replicate 32 0),
          Except.error "count read lost"], [], []⟩).1 =
        .fatal "count read lost" := by
  have h := C7_error_propagation
  refine ⟨h.1 "open failed" [] [] [], ?_, ?_⟩
  · have h4 := h.2.2.2.1 "boom" 3 [[9, 8, 7, 6, 5, 4, 3, 2, 1]]
      (List.replicate 32 0) [] [] [] (by decide) (by decide) (by decide)
    simp only [List.map_cons, List.map_nil, List.cons_append,
      List.nil_append, List.append_nil, List.length_singleton] at h4
    rw [h4]
    decide
  · have h7 := h.2.2.2.2.2.2.1 "count read lost" [] []
      (List.replicate 32 0) (by decide)
    simpa using h7

theorem getData_ok_ge (size : Nat) :
    ∀ (reads : List ReadOutcome) (t : Nat) (buf : List Nat)
      (n : Nat) (out : List Nat) (rest : List ReadOutcome),
      getData size reads t buf = (.ok n out, rest) → size ≤ n := by
  intro reads
  induction reads with
  | nil =>
    intro t buf n out rest h
    by_cases hst : size ≤ t
    · rw [getData_done hst] at h
      obtain ⟨h1, -⟩ := Prod.mk.injEq .. ▸ h
      cases h1
      exact hst
    · unfold getData at h
      rw [if_neg hst] at h
      simp at h
  | cons r rest' ih =>
    intro t buf n out rest h
    by_cases hst : size ≤ t
    · rw [getData_done hst] at h
      obtain ⟨h1, -⟩ := Prod.mk.injEq .. ▸ h
      cases h1
      exact hst
    · match r with
      | .error e =>
        rw [getData_fatal hst] at h
        simp at h
      | .ok bs =>
        rw [getData_step hst] at h
        exact ih _ _ _ _ _ h

/-- C10: whenever `getData` succeeds its returned byte count is at least
the requested size, so the count-phase error branch of `fetchData` (which
fires when the returned count differs from 1) can never be taken because
a read yielded zero bytes — it requires at least 2 bytes, i.e. a single
`Read` delivering more than was still needed — and that branch is
reachable exactly that way: a count read delivering two bytes makes
`fetchData` return the "no measurement found" error. -/
theorem C10_getData_count (size : Nat) (reads : List ReadOutcome)
    (n : Nat) (out : List Nat) (rest : List ReadOutcome) :
    (getData size reads 0 [] = (.ok n out, rest) → size ≤ n) ∧
      (getData 1 reads 0 [] = (.ok n out, rest) → n ≠ 1 → 2 ≤ n) ∧
      (fetchData ⟨[Except.ok [0x55], Except.ok (List.replicate 32 0),
          Except.ok [0, 0]], [], []⟩).1 = .err [] "no measurement found" := by
  refine ⟨fun h => getData_ok_ge size reads 0 [] n out rest h,
    fun h hne => ?_, by decide⟩
  have := getData_ok_ge 1 reads 0 [] n out rest h
  omega

/-- C10 witness: the theorem at a concrete channel whose single read
delivers two bytes when one was requested: `getData` reports 2 ≥ 1. -/
theorem C10_witness : (1 : Nat) ≤ 2 ∧ (2 : Nat) ≤ 2 := by
  have h := C10_getData_count 1 [Except.ok [5, 6]] 2 [5, 6] []
  exact ⟨h.1 (by decide), h.2.1 (by decide) (by decide)⟩
